import Mathlib

/-!
Shallow embedding of the ARM926EJ-S utilities repository: the primary
interrupt controller (PIC) driver of `interrupt.c` and the boot-time
exception-vector relocator (`copy_vectors`), together with theorems that
check the natural-language specification against this embedding.

Machine integers are modelled as `Nat`/`Int`; 32-bit hardware registers are
`Nat` values and the write-only "clear" registers are modelled by their
documented effect (1-bits clear the corresponding bits of the backing
register).  C arrays indexed by a bounded counter become `Nat`-indexed
functions, and the bounded `for` loops of the C source become fuel-indexed
structural recursions whose fuel is the (constant) trip count, so that every
definition evaluates by kernel reduction.
-/

namespace Arm926

/-- Number of interrupt request lines handled by the PIC (`NR_INTERRUPTS`). -/
def NR_INTERRUPTS : Nat := 32

/-- Number of hardware vector slots (`NR_VECTORS`). -/
def NR_VECTORS : Nat := 16

/-- Enable bit of a `VICVECTCNTLn` register (`BM_VECT_ENABLE_BIT`). -/
def BM_VECT_ENABLE_BIT : Nat := 0x20

/-- A full 32-bit word of ones, as written to the clear registers. -/
def MASK32 : Nat := 0xFFFFFFFF

/-!
Non-vectored dispatch (`_pic_IrqHandler`, `__irq_vector_mode = 0` branch).

The loop body reads the volatile `VICIRQSTATUS` register anew on every
iteration and, when bit `irq` is set, calls the routine stored at
`__isrNV[irq]`.  A bound routine is modelled by its effect on the pending
word: invoking the routine at table index `irq` while the pending word is
`st` leaves the hardware with pending word `isrs irq st`.  The returned
list logs which table entries were invoked, in order.
-/

/-- Loop of the non-vectored branch of `_pic_IrqHandler`: `fuel` is
`NR_INTERRUPTS - irq`, `st` is the current value of `VICIRQSTATUS`
(re-read on every iteration, since the register is volatile), and `acc`
logs the invoked table indices. -/
def dispatchLoop (isrs : Nat → Nat → Nat) :
    Nat → Nat → Nat → List Nat → Nat × List Nat
  | 0, _, st, acc => (st, acc)
  | fuel + 1, irq, st, acc =>
    if st.testBit irq then
      dispatchLoop isrs fuel (irq + 1) (isrs irq st) (acc ++ [irq])
    else
      dispatchLoop isrs fuel (irq + 1) st acc

/-- The non-vectored branch of `_pic_IrqHandler`: scan interrupt lines
`0 .. NR_INTERRUPTS - 1` in ascending order, servicing every line whose
pending bit is set at the moment its position is scanned. -/
def picIrqHandlerNonVectored (isrs : Nat → Nat → Nat) (st : Nat) :
    Nat × List Nat :=
  dispatchLoop isrs NR_INTERRUPTS 0 st []

/-- Reference dispatcher following the specification's words: the pending
word is sampled exactly once at pass start (`captured`) and the scan tests
bit positions of that captured word only.  Invoked routines still update
the live pending word `st`. -/
def dispatchOnceLoop (isrs : Nat → Nat → Nat) (captured : Nat) :
    Nat → Nat → Nat → List Nat → Nat × List Nat
  | 0, _, st, acc => (st, acc)
  | fuel + 1, irq, st, acc =>
    if captured.testBit irq then
      dispatchOnceLoop isrs captured fuel (irq + 1) (isrs irq st) (acc ++ [irq])
    else
      dispatchOnceLoop isrs captured fuel (irq + 1) st acc

/-- Specification reference for non-vectored dispatch: capture the pending
word once, then service bit positions `0..31` of the captured word. -/
def dispatchNonVectoredOnce (isrs : Nat → Nat → Nat) (st : Nat) :
    Nat × List Nat :=
  dispatchOnceLoop isrs st NR_INTERRUPTS 0 st []

/-- Ascending list of the bit positions of `st` that are set, restricted to
the window `irq, irq+1, …, irq+fuel-1`. -/
def servicedBits (st : Nat) : Nat → Nat → List Nat
  | 0, _ => []
  | fuel + 1, irq =>
    if st.testBit irq then irq :: servicedBits st fuel (irq + 1)
    else servicedBits st fuel (irq + 1)

/-- Interrupt-service behaviour used to refute the single-capture claim:
the routine bound to line 2 asserts the pending bit of line 9 (for example
through `VICSOFTINT`); every other routine leaves the pending word alone. -/
def isrAsserting9 : Nat → Nat → Nat :=
  fun i st => if i = 2 then st ||| 512 else st

/-- Pointwise update of a `Nat`-indexed table at index `i`. -/
def updN {α : Type} (f : Nat → α) (i : Nat) (v : α) : Nat → α :=
  fun j => if j = i then v else f j

/-- Link-time address of the `__irq_dummyISR` routine; an arbitrary fixed
nonzero code address (no theorem depends on its value). -/
def dummyISRAddr : Nat := 0x8000

/-- State of the PIC: its memory-mapped registers (the fields of
`ARM926EJS_PIC_REGS` that the driver writes) together with the driver's
static tables `__isrNV` and `__irqVect` and the mode flag
`__irq_vector_mode`.  The 16- and 32-entry register banks and tables are
`Nat`-indexed functions; the driver only ever accesses indices below
`NR_VECTORS` resp. `NR_INTERRUPTS`. -/
structure PicState where
  VICINTSELECT : Nat
  VICINTENABLE : Nat
  VICSOFTINT : Nat
  VICDEFVECTADDR : Nat
  VICVECTADDRn : Nat → Nat
  VICVECTCNTLn : Nat → Nat
  irqVect : Nat → Int
  isrNV : Nat → Nat
  irqVectorMode : Int

/-- Effect of writing word `w` to a write-only clear register whose backing
state is `reg` (semantics documented in the driver and DDI0181: 1-bits
clear the corresponding bits, 0-bits leave them alone). -/
def writeClearReg (reg w : Nat) : Nat :=
  reg &&& (MASK32 ^^^ (w &&& MASK32))

/-- A `PicState` with everything zeroed, used as a concrete start state. -/
def picZero : PicState :=
  { VICINTSELECT := 0, VICINTENABLE := 0, VICSOFTINT := 0,
    VICDEFVECTADDR := 0, VICVECTADDRn := fun _ => 0,
    VICVECTCNTLn := fun _ => 0, irqVect := fun _ => 0,
    isrNV := fun _ => 0, irqVectorMode := 0 }

/-- Embedding of `pic_init`: select all lines as IRQ, write a full mask to
the enable-clear and software-interrupt-clear registers, point the default
vector at the dummy routine, empty the shadow table `__irqVect`, point
every `__isrNV` entry at the dummy routine and select non-vectored mode.
The source function touches no other register (in particular it leaves
every `VICVECTCNTLn` and `VICVECTADDRn` unmodified). -/
def pic_init (s : PicState) : PicState :=
  { s with
    VICINTSELECT := 0,
    VICINTENABLE := writeClearReg s.VICINTENABLE 0xFFFFFFFF,
    VICSOFTINT := writeClearReg s.VICSOFTINT 0xFFFFFFFF,
    VICDEFVECTADDR := dummyISRAddr,
    irqVect := fun _ => -1,
    isrNV := fun _ => dummyISRAddr,
    irqVectorMode := 0 }

/-- Embedding of `pic_registerNonVectoredIrq`: store `addr` in `__isrNV[irq]`
when `irq < NR_INTERRUPTS` and `addr` is not `NULL`, otherwise no-op. -/
def pic_registerNonVectoredIrq (s : PicState) (irq : Nat) (addr : Nat) :
    PicState :=
  if irq < NR_INTERRUPTS ∧ addr ≠ 0 then
    { s with isrNV := updN s.isrNV irq addr }
  else s

/-- Embedding of `pic_enableInterrupt`: or the line's bit into
`VICINTENABLE` when `irq < NR_INTERRUPTS`, otherwise no-op. -/
def pic_enableInterrupt (s : PicState) (irq : Nat) : PicState :=
  if irq < NR_INTERRUPTS then
    { s with VICINTENABLE := s.VICINTENABLE ||| (1 <<< irq) }
  else s

/-- Embedding of `pic_disableInterrupt`: write the line's bit to the
write-only `VICINTENCLEAR` register when `irq < NR_INTERRUPTS`. -/
def pic_disableInterrupt (s : PicState) (irq : Nat) : PicState :=
  if irq < NR_INTERRUPTS then
    { s with VICINTENABLE := writeClearReg s.VICINTENABLE (1 <<< irq) }
  else s

/-- Embedding of `pic_isInterruptEnabled`: 1 when `irq < NR_INTERRUPTS` and
the line's bit of `VICINTENABLE` is set, otherwise 0. -/
def pic_isInterruptEnabled (s : PicState) (irq : Nat) : Int :=
  if irq < NR_INTERRUPTS ∧ s.VICINTENABLE &&& (1 <<< irq) ≠ 0 then 1 else 0

/-- Embedding of `pic_getInterruptType`: 1 (IRQ) when `irq < NR_INTERRUPTS`
and the line's `VICINTSELECT` bit is clear, otherwise 0 (FIQ or invalid). -/
def pic_getInterruptType (s : PicState) (irq : Nat) : Int :=
  if irq < NR_INTERRUPTS ∧ s.VICINTSELECT &&& (1 <<< irq) = 0 then 1 else 0

/-- Embedding of `pic_setInterruptType`: for a valid line, clear the
`VICINTSELECT` bit (via and with the 32-bit complement of the mask) when
`toIrq` is nonzero, otherwise set it; no-op for an invalid line. -/
def pic_setInterruptType (s : PicState) (irq : Nat) (toIrq : Int) : PicState :=
  if irq < NR_INTERRUPTS then
    if toIrq ≠ 0 then
      { s with VICINTSELECT := s.VICINTSELECT &&& (MASK32 ^^^ (1 <<< irq)) }
    else
      { s with VICINTSELECT := s.VICINTSELECT ||| (1 <<< irq) }
  else s

/-- Scan loop of `pic_registerVectorIrq`: starting at slot `cntr` with
`fuel = NR_VECTORS - cntr` and first-empty-so-far `empty`, skip negative
(empty) shadow entries while remembering the first one in `empty`, and
break — returning the current `(cntr, empty)` — at the first slot whose
shadow entry equals `irq`.  Falling off the loop returns
`(NR_VECTORS, empty)`. -/
def regScan (vect : Nat → Int) (irq : Nat) : Nat → Nat → Int → Nat × Int
  | 0, cntr, empty => (cntr, empty)
  | fuel + 1, cntr, empty =>
    if vect cntr < 0 then
      regScan vect irq fuel (cntr + 1) (if empty < 0 then (cntr : Int) else empty)
    else if (irq : Int) = vect cntr then
      (cntr, empty)
    else
      regScan vect irq fuel (cntr + 1) empty

/-- Tail of `pic_registerVectorIrq` once slot `cntr` has been chosen: enter
`irq` into the shadow table, program the slot's address register with
`addr` and its control register with `irq | BM_VECT_ENABLE_BIT`, and
return the slot index. -/
def bindAt (s : PicState) (irq addr cntr : Nat) : PicState × Int :=
  ({ s with
      irqVect := updN s.irqVect cntr (irq : Int),
      VICVECTADDRn := updN s.VICVECTADDRn cntr addr,
      VICVECTCNTLn := updN s.VICVECTCNTLn cntr (irq ||| BM_VECT_ENABLE_BIT) },
   (cntr : Int))

/-- Embedding of `pic_registerVectorIrq`: reject an invalid line or `NULL`
address with -1; otherwise scan for an existing slot bound to `irq` or the
first empty slot, fail with -1 when neither exists, and otherwise program
the chosen slot. -/
def pic_registerVectorIrq (s : PicState) (irq : Nat) (addr : Nat) :
    PicState × Int :=
  if NR_INTERRUPTS ≤ irq ∨ addr = 0 then (s, -1)
  else if NR_VECTORS ≤ (regScan s.irqVect irq NR_VECTORS 0 (-1)).1 then
    if (regScan s.irqVect irq NR_VECTORS 0 (-1)).2 < 0 then (s, -1)
    else bindAt s irq addr (regScan s.irqVect irq NR_VECTORS 0 (-1)).2.toNat
  else bindAt s irq addr (regScan s.irqVect irq NR_VECTORS 0 (-1)).1

/-- Sequence of `n` calls `pic_registerVectorIrq (lines i) (addrs i)`,
`i = 0, …, n-1`, returning the final state and the list of returned slot
indices in call order. -/
def bindSeq (s : PicState) (lines : Nat → Nat) (addrs : Nat → Nat) :
    Nat → PicState × List Int
  | 0 => (s, [])
  | n + 1 =>
    let p := bindSeq s lines addrs n
    let q := pic_registerVectorIrq p.1 (lines n) (addrs n)
    (q.1, p.2 ++ [q.2])

/-!
Boot vector relocator.  The memory of the board is modelled word-addressed:
`mem : Nat → Nat` maps the index of a 32-bit word to its value, matching
the `uint32_t*` arithmetic of `copy_vectors`.  `copy_vectors` reads its
source bounds from the linker symbols `vectors_start` / `vectors_end` and
its destination from `MEM_DST_START`; the embedding takes all three as
parameters.  `MAX_WORD_ADDR` is `(uint32_t*) MAX_ADDRESS`, the highest
representable word pointer, so that the C guard
`block_len > (uint32_t*) MAX_ADDRESS - dst_start` becomes
`block_len > MAX_WORD_ADDR - dst_start`.
-/

/-- Highest word-pointer value, `(uint32_t*) UINT32_MAX`. -/
def MAX_WORD_ADDR : Nat := 0x3FFFFFFF

/-- Write value `v` to word address `a`. -/
def writeMem (mem : Nat → Nat) (a v : Nat) : Nat → Nat :=
  fun x => if x = a then v else mem x

/-- Forward copy loop of `copy_vectors` (`*vectors_dst++ = *vectors_src++`),
copying `n` words from low to high addresses; returns the new memory and
the number of destination writes performed. -/
def copyFwd : (Nat → Nat) → Nat → Nat → Nat → (Nat → Nat) × Nat
  | mem, _, _, 0 => (mem, 0)
  | mem, src, dst, n + 1 =>
    let r := copyFwd (writeMem mem dst (mem src)) (src + 1) (dst + 1) n
    (r.1, r.2 + 1)

/-- Backward copy loop of `copy_vectors` (`*vectors_dst-- = *vectors_src--`),
copying `n` words from high to low addresses; returns the new memory and
the number of destination writes performed. -/
def copyBwd : (Nat → Nat) → Nat → Nat → Nat → (Nat → Nat) × Nat
  | mem, _, _, 0 => (mem, 0)
  | mem, src, dst, n + 1 =>
    let r := copyBwd (writeMem mem (dst + n) (mem (src + n))) src dst n
    (r.1, r.2 + 1)

/-- Embedding of `copy_vectors` (the full snapshot with defensive
normalization, self-copy guard, overflow guard and direction choice),
generalized over the source bounds and the destination: normalize the
source range, return unchanged when the destination coincides with the
normalized source start or when a forward copy would exceed the
addressable range, copy forward when the destination lies outside
`[src_begin, src_end)` and backward otherwise.  Also returns the number of
destination writes performed. -/
def relocate (mem : Nat → Nat) (vectorsStart vectorsEnd dstStart : Nat) :
    (Nat → Nat) × Nat :=
  if dstStart = min vectorsStart vectorsEnd then (mem, 0)
  else if max vectorsStart vectorsEnd - min vectorsStart vectorsEnd
      > MAX_WORD_ADDR - dstStart then (mem, 0)
  else if dstStart < min vectorsStart vectorsEnd
      ∨ max vectorsStart vectorsEnd ≤ dstStart then
    copyFwd mem (min vectorsStart vectorsEnd) dstStart
      (max vectorsStart vectorsEnd - min vectorsStart vectorsEnd)
  else
    copyBwd mem (min vectorsStart vectorsEnd) dstStart
      (max vectorsStart vectorsEnd - min vectorsStart vectorsEnd)

/-- Specification reference for `relocate`: a copy of the original source
content through a non-overlapping intermediate buffer, i.e. every word of
the destination range receives the word of the *original* memory at the
corresponding source offset and every other word is untouched. -/
def relocateRef (mem : Nat → Nat) (vectorsStart vectorsEnd dstStart a : Nat) :
    Nat :=
  if dstStart ≤ a
      ∧ a < dstStart + (max vectorsStart vectorsEnd - min vectorsStart vectorsEnd) then
    mem (min vectorsStart vectorsEnd + (a - dstStart))
  else mem a

/-!
Helper lemmas.
-/

lemma dispatchLoop_of_fixed (isrs : Nat → Nat → Nat) (st : Nat)
    (h : ∀ i, isrs i st = st) :
    ∀ fuel irq acc,
      dispatchLoop isrs fuel irq st acc = (st, acc ++ servicedBits st fuel irq) := by
  intro fuel
  induction fuel with
  | zero => intro irq acc; simp [dispatchLoop, servicedBits]
  | succ n ih =>
    intro irq acc
    by_cases hb : st.testBit irq
    · simp [dispatchLoop, servicedBits, hb, h, ih]
    · simp [dispatchLoop, servicedBits, hb, ih]

lemma dispatchOnceLoop_of_fixed (isrs : Nat → Nat → Nat) (captured st : Nat)
    (h : ∀ i, isrs i st = st) :
    ∀ fuel irq acc,
      dispatchOnceLoop isrs captured fuel irq st acc
        = (st, acc ++ servicedBits captured fuel irq) := by
  intro fuel
  induction fuel with
  | zero => intro irq acc; simp [dispatchOnceLoop, servicedBits]
  | succ n ih =>
    intro irq acc
    by_cases hb : captured.testBit irq
    · simp [dispatchOnceLoop, servicedBits, hb, h, ih]
    · simp [dispatchOnceLoop, servicedBits, hb, ih]

lemma updN_same {α : Type} (f : Nat → α) (i : Nat) (v : α) : updN f i v i = v := by
  simp [updN]

lemma updN_ne {α : Type} (f : Nat → α) (i j : Nat) (v : α) (h : j ≠ i) :
    updN f i v j = f j := by
  simp [updN, h]

lemma one_shl (i : Nat) : 1 <<< i = 2 ^ i := by
  rw [Nat.shiftLeft_eq, one_mul]

lemma and_shl_ne_zero_iff (x i : Nat) : x &&& (1 <<< i) ≠ 0 ↔ x.testBit i := by
  rw [one_shl, Nat.and_two_pow x i]
  cases hb : x.testBit i <;> simp [hb]

lemma testBit_mask32 (j : Nat) : MASK32.testBit j = decide (j < 32) := by
  have h : MASK32 = 2 ^ 32 - 1 := by norm_num [MASK32]
  rw [h, Nat.testBit_two_pow_sub_one]

lemma regScan_break (vect : Nat → Int) (irq : Nat) :
    ∀ fuel cntr (empty : Int) (f : Nat), cntr ≤ f → f < cntr + fuel →
      vect f = (irq : Int) → (∀ j, cntr ≤ j → j < f → vect j ≠ (irq : Int)) →
      (regScan vect irq fuel cntr empty).1 = f := by
  intro fuel
  induction fuel with
  | zero => intro cntr empty f h1 h2 _ _; omega
  | succ n ih =>
    intro cntr empty f h1 h2 hf hmiss
    by_cases h0 : vect cntr < 0
    · have hcf : cntr ≠ f := by intro e; rw [e, hf] at h0; omega
      simp only [regScan]
      rw [if_pos h0]
      exact ih (cntr + 1) _ f (by omega) (by omega) hf
        (fun j hj1 hj2 => hmiss j (by omega) hj2)
    · by_cases heq : (irq : Int) = vect cntr
      · have hcf : cntr = f := by
          by_contra hne
          exact hmiss cntr le_rfl (by omega) heq.symm
        simp only [regScan]
        rw [if_neg h0, if_pos heq]
        exact hcf
      · have hcf : cntr ≠ f := by intro e; rw [e] at heq; exact heq hf.symm
        simp only [regScan]
        rw [if_neg h0, if_neg heq]
        exact ih (cntr + 1) empty f (by omega) (by omega) hf
          (fun j hj1 hj2 => hmiss j (by omega) hj2)

lemma regScan_miss_nonneg (vect : Nat → Int) (irq : Nat) :
    ∀ fuel cntr (empty : Int), 0 ≤ empty →
      (∀ j, cntr ≤ j → j < cntr + fuel → vect j ≠ (irq : Int)) →
      regScan vect irq fuel cntr empty = (cntr + fuel, empty) := by
  intro fuel
  induction fuel with
  | zero => intro cntr empty _ _; simp [regScan]
  | succ n ih =>
    intro cntr empty he hmiss
    by_cases h0 : vect cntr < 0
    · simp only [regScan]
      rw [if_pos h0, if_neg (by omega)]
      rw [ih (cntr + 1) empty he (fun j hj1 hj2 => hmiss j (by omega) (by omega))]
      rw [show cntr + 1 + n = cntr + (n + 1) by omega]
    · have heq : (irq : Int) ≠ vect cntr :=
        fun e => hmiss cntr le_rfl (by omega) e.symm
      simp only [regScan]
      rw [if_neg h0, if_neg heq]
      rw [ih (cntr + 1) empty he (fun j hj1 hj2 => hmiss j (by omega) (by omega))]
      rw [show cntr + 1 + n = cntr + (n + 1) by omega]

lemma regScan_miss_none (vect : Nat → Int) (irq : Nat) :
    ∀ fuel cntr,
      (∀ j, cntr ≤ j → j < cntr + fuel → vect j ≠ (irq : Int)) →
      (∀ j, cntr ≤ j → j < cntr + fuel → ¬ vect j < 0) →
      regScan vect irq fuel cntr (-1) = (cntr + fuel, -1) := by
  intro fuel
  induction fuel with
  | zero => intro cntr _ _; simp [regScan]
  | succ n ih =>
    intro cntr hmiss hnn
    have h0 : ¬ vect cntr < 0 := hnn cntr le_rfl (by omega)
    have heq : (irq : Int) ≠ vect cntr :=
      fun e => hmiss cntr le_rfl (by omega) e.symm
    simp only [regScan]
    rw [if_neg h0, if_neg heq]
    rw [ih (cntr + 1) (fun j hj1 hj2 => hmiss j (by omega) (by omega))
      (fun j hj1 hj2 => hnn j (by omega) (by omega))]
    rw [show cntr + 1 + n = cntr + (n + 1) by omega]

lemma regScan_miss_firstneg (vect : Nat → Int) (irq : Nat) :
    ∀ fuel cntr (e : Nat), cntr ≤ e → e < cntr + fuel →
      vect e < 0 → (∀ j, cntr ≤ j → j < e → ¬ vect j < 0) →
      (∀ j, cntr ≤ j → j < cntr + fuel → vect j ≠ (irq : Int)) →
      regScan vect irq fuel cntr (-1) = (cntr + fuel, (e : Int)) := by
  intro fuel
  induction fuel with
  | zero => intro cntr e h1 h2 _ _ _; omega
  | succ n ih =>
    intro cntr e h1 h2 hneg hfirst hmiss
    by_cases hce : cntr = e
    · have h0 : vect cntr < 0 := by rw [hce]; exact hneg
      simp only [regScan]
      rw [if_pos h0, if_pos (by norm_num)]
      rw [regScan_miss_nonneg vect irq n (cntr + 1) (cntr : Int) (by omega)
        (fun j hj1 hj2 => hmiss j (by omega) (by omega))]
      rw [show cntr + 1 + n = cntr + (n + 1) by omega, hce]
    · have hclt : cntr < e := by omega
      have h0 : ¬ vect cntr < 0 := hfirst cntr le_rfl hclt
      have heq : (irq : Int) ≠ vect cntr :=
        fun e2 => hmiss cntr le_rfl (by omega) e2.symm
      simp only [regScan]
      rw [if_neg h0, if_neg heq]
      rw [ih (cntr + 1) e (by omega) (by omega) hneg
        (fun j hj1 hj2 => hfirst j (by omega) hj2)
        (fun j hj1 hj2 => hmiss j (by omega) (by omega))]
      rw [show cntr + 1 + n = cntr + (n + 1) by omega]

lemma register_guard_false (irq addr : Nat) (hirq : irq < NR_INTERRUPTS)
    (haddr : addr ≠ 0) : ¬ (NR_INTERRUPTS ≤ irq ∨ addr = 0) := by
  push_neg
  exact ⟨by omega, haddr⟩

lemma register_existing (s : PicState) (irq addr f : Nat)
    (hf16 : f < NR_VECTORS) (hirq : irq < NR_INTERRUPTS) (haddr : addr ≠ 0)
    (hf : s.irqVect f = (irq : Int))
    (hmin : ∀ j, j < f → s.irqVect j ≠ (irq : Int)) :
    pic_registerVectorIrq s irq addr = bindAt s irq addr f := by
  have hscan : (regScan s.irqVect irq NR_VECTORS 0 (-1)).1 = f :=
    regScan_break s.irqVect irq NR_VECTORS 0 (-1) f (Nat.zero_le f) (by omega) hf
      (fun j _ hj2 => hmin j hj2)
  unfold pic_registerVectorIrq
  rw [if_neg (register_guard_false irq addr hirq haddr), hscan,
    if_neg (by omega)]

lemma register_fresh (s : PicState) (irq addr k : Nat)
    (hk : k < NR_VECTORS) (hirq : irq < NR_INTERRUPTS) (haddr : addr ≠ 0)
    (hbelow : ∀ j, j < k → 0 ≤ s.irqVect j ∧ s.irqVect j ≠ (irq : Int))
    (habove : ∀ j, k ≤ j → j < NR_VECTORS → s.irqVect j = -1) :
    pic_registerVectorIrq s irq addr = bindAt s irq addr k := by
  have hscan : regScan s.irqVect irq NR_VECTORS 0 (-1) = (0 + NR_VECTORS, (k : Int)) := by
    apply regScan_miss_firstneg s.irqVect irq NR_VECTORS 0 k (Nat.zero_le k) (by omega)
    · rw [habove k le_rfl hk]; norm_num
    · intro j _ hj2
      have := (hbelow j hj2).1
      omega
    · intro j _ hj2
      by_cases hjk : j < k
      · exact (hbelow j hjk).2
      · rw [habove j (by omega) (by omega)]
        intro e
        omega
  unfold pic_registerVectorIrq
  rw [if_neg (register_guard_false irq addr hirq haddr), hscan]
  norm_num

lemma register_full (s : PicState) (irq addr : Nat)
    (hmiss : ∀ j, j < NR_VECTORS → s.irqVect j ≠ (irq : Int))
    (hnn : ∀ j, j < NR_VECTORS → ¬ s.irqVect j < 0) :
    pic_registerVectorIrq s irq addr = (s, -1) := by
  by_cases hguard : NR_INTERRUPTS ≤ irq ∨ addr = 0
  · unfold pic_registerVectorIrq
    rw [if_pos hguard]
  · have hscan : regScan s.irqVect irq NR_VECTORS 0 (-1) = (0 + NR_VECTORS, -1) :=
      regScan_miss_none s.irqVect irq NR_VECTORS 0
        (fun j _ hj2 => hmiss j (by omega))
        (fun j _ hj2 => hnn j (by omega))
    unfold pic_registerVectorIrq
    rw [if_neg hguard, hscan]
    norm_num

lemma registerVectorIrq_inv (s : PicState) (irq addr : Nat)
    (hirq : irq < NR_INTERRUPTS) (haddr : addr ≠ 0)
    (hok : 0 ≤ (pic_registerVectorIrq s irq addr).2) :
    ∃ c, c < NR_VECTORS ∧ pic_registerVectorIrq s irq addr = bindAt s irq addr c ∧
      ∀ j, j < c → s.irqVect j ≠ (irq : Int) := by
  by_cases hP : ∃ f, f < NR_VECTORS ∧ s.irqVect f = (irq : Int)
  · obtain ⟨hf16, hf⟩ := Nat.find_spec hP
    refine ⟨Nat.find hP, hf16,
      register_existing s irq addr _ hf16 hirq haddr hf ?_, ?_⟩ <;>
    · intro j hj
      have hmin := Nat.find_min hP hj
      push_neg at hmin
      exact hmin (by omega)
  · push_neg at hP
    by_cases hQ : ∃ e, e < NR_VECTORS ∧ s.irqVect e < 0
    · obtain ⟨he16, hneg⟩ := Nat.find_spec hQ
      have hscan : regScan s.irqVect irq NR_VECTORS 0 (-1)
          = (0 + NR_VECTORS, ((Nat.find hQ : Nat) : Int)) := by
        apply regScan_miss_firstneg s.irqVect irq NR_VECTORS 0 _ (Nat.zero_le _)
          (by omega) hneg
        · intro j _ hj2
          have hmin := Nat.find_min hQ hj2
          push_neg at hmin
          have := hmin (by omega)
          omega
        · intro j _ hj2
          exact hP j (by omega)
      refine ⟨Nat.find hQ, he16, ?_, fun j hj => hP j (by omega)⟩
      unfold pic_registerVectorIrq
      rw [if_neg (register_guard_false irq addr hirq haddr), hscan]
      norm_num
    · push_neg at hQ
      rw [register_full s irq addr hP (fun j hj => by have := hQ j hj; omega)] at hok
      norm_num at hok

lemma bindSeq_inv (s0 : PicState) (lines addrs : Nat → Nat)
    (hvect : ∀ j, s0.irqVect j = -1)
    (hl : ∀ i, i < NR_VECTORS → lines i < NR_INTERRUPTS)
    (hinj : ∀ i j, i < NR_VECTORS → j < NR_VECTORS → lines i = lines j → i = j)
    (ha : ∀ i, i < NR_VECTORS → addrs i ≠ 0) :
    ∀ k, k ≤ NR_VECTORS →
      (∀ j, j < k → (bindSeq s0 lines addrs k).1.irqVect j = ((lines j : Nat) : Int)) ∧
      (∀ j, k ≤ j → (bindSeq s0 lines addrs k).1.irqVect j = -1) ∧
      (bindSeq s0 lines addrs k).2 = (List.range k).map (fun i => ((i : Nat) : Int)) := by
  intro k
  induction k with
  | zero =>
    intro _
    exact ⟨fun j hj => absurd hj (Nat.not_lt_zero j), fun j _ => hvect j, rfl⟩
  | succ k ih =>
    intro hk1
    have hk16 : k < NR_VECTORS := by omega
    obtain ⟨ih1, ih2, ih3⟩ := ih (by omega)
    have hstep : bindSeq s0 lines addrs (k + 1)
        = ((pic_registerVectorIrq (bindSeq s0 lines addrs k).1 (lines k) (addrs k)).1,
           (bindSeq s0 lines addrs k).2
             ++ [(pic_registerVectorIrq (bindSeq s0 lines addrs k).1
                   (lines k) (addrs k)).2]) := rfl
    have hq : pic_registerVectorIrq (bindSeq s0 lines addrs k).1 (lines k) (addrs k)
        = bindAt (bindSeq s0 lines addrs k).1 (lines k) (addrs k) k := by
      apply register_fresh _ _ _ _ hk16 (hl k hk16) (ha k hk16)
      · intro j hj
        rw [ih1 j hj]
        refine ⟨Int.natCast_nonneg _, fun e => ?_⟩
        have he2 : lines j = lines k := by exact_mod_cast e
        have := hinj j k (by omega) hk16 he2
        omega
      · intro j hj1 _
        exact ih2 j hj1
    refine ⟨?_, ?_, ?_⟩
    · intro j hj
      rw [hstep, hq]
      by_cases hjk : j = k
      · subst hjk
        simp [bindAt, updN]
      · have := ih1 j (by omega)
        simp [bindAt, updN, hjk, this]
    · intro j hj
      have hjk : ¬ j = k := by omega
      have := ih2 j (by omega)
      rw [hstep, hq]
      simp [bindAt, updN, hjk, this]
    · rw [hstep, hq, ih3]
      simp [bindAt, List.range_succ]

lemma copyFwd_spec :
    ∀ (n : Nat) (mem : Nat → Nat) (src dst : Nat),
      (dst < src ∨ src + n ≤ dst) →
      ∀ a, (copyFwd mem src dst n).1 a
        = if dst ≤ a ∧ a < dst + n then mem (src + (a - dst)) else mem a := by
  intro n
  induction n with
  | zero =>
    intro mem src dst _ a
    rw [if_neg (by omega)]
    rfl
  | succ n ih =>
    intro mem src dst h a
    have hstep : (copyFwd mem src dst (n + 1)).1
        = (copyFwd (writeMem mem dst (mem src)) (src + 1) (dst + 1) n).1 := rfl
    rw [hstep, ih (writeMem mem dst (mem src)) (src + 1) (dst + 1) (by omega) a]
    by_cases h1 : dst + 1 ≤ a ∧ a < dst + 1 + n
    · rw [if_pos h1, if_pos (by omega)]
      rw [show src + 1 + (a - (dst + 1)) = src + (a - dst) by omega]
      have hne : src + (a - dst) ≠ dst := by omega
      simp [writeMem, hne]
    · rw [if_neg h1]
      by_cases h2 : a = dst
      · rw [if_pos (by omega)]
        subst h2
        simp [writeMem]
      · rw [if_neg (by omega)]
        simp [writeMem, h2]

lemma copyBwd_spec :
    ∀ (n : Nat) (mem : Nat → Nat) (src dst : Nat), src ≤ dst →
      ∀ a, (copyBwd mem src dst n).1 a
        = if dst ≤ a ∧ a < dst + n then mem (src + (a - dst)) else mem a := by
  intro n
  induction n with
  | zero =>
    intro mem src dst _ a
    rw [if_neg (by omega)]
    rfl
  | succ n ih =>
    intro mem src dst h a
    have hstep : (copyBwd mem src dst (n + 1)).1
        = (copyBwd (writeMem mem (dst + n) (mem (src + n))) src dst n).1 := rfl
    rw [hstep, ih (writeMem mem (dst + n) (mem (src + n))) src dst h a]
    by_cases h1 : dst ≤ a ∧ a < dst + n
    · rw [if_pos h1, if_pos (by omega)]
      have hne : src + (a - dst) ≠ dst + n := by omega
      simp [writeMem, hne]
    · rw [if_neg h1]
      by_cases h2 : a = dst + n
      · rw [if_pos (by omega)]
        subst h2
        simp [writeMem]
      · rw [if_neg (by omega)]
        simp [writeMem, h2]

lemma writeClearReg_testBit (reg w j : Nat) (hj : j < 32) :
    (writeClearReg reg w).testBit j = (reg.testBit j && ! w.testBit j) := by
  unfold writeClearReg
  simp [Nat.testBit_and, Nat.testBit_xor, testBit_mask32, hj]

lemma isEnabled_testBit (s : PicState) (irq : Nat) (h : irq < NR_INTERRUPTS) :
    pic_isInterruptEnabled s irq
      = if s.VICINTENABLE.testBit irq then 1 else 0 := by
  unfold pic_isInterruptEnabled
  by_cases hb : s.VICINTENABLE.testBit irq
  · rw [if_pos ⟨h, (and_shl_ne_zero_iff _ _).mpr hb⟩, if_pos hb]
  · rw [if_neg (fun hc => hb ((and_shl_ne_zero_iff _ _).mp hc.2)), if_neg hb]

lemma getType_testBit (s : PicState) (irq : Nat) (h : irq < NR_INTERRUPTS) :
    pic_getInterruptType s irq
      = if s.VICINTSELECT.testBit irq then 0 else 1 := by
  unfold pic_getInterruptType
  by_cases hb : s.VICINTSELECT.testBit irq
  · rw [if_neg (fun hc => (and_shl_ne_zero_iff _ _).mpr hb hc.2), if_pos hb]
  · have hz : s.VICINTSELECT &&& (1 <<< irq) = 0 := by
      by_contra hnz
      exact hb ((and_shl_ne_zero_iff _ _).mp hnz)
    rw [if_pos ⟨h, hz⟩, if_neg hb]

/-!
Claim theorems.
-/

/-- Claim C1, counterexample.  The non-vectored dispatch pass is *not*
equivalent to a single-capture reference: with only line 2 pending at pass
start and the ISR of line 2 asserting line 9's pending bit, the dispatcher
of the source services line 9 in the same pass (it re-reads the volatile
`VICIRQSTATUS` on every iteration), while the single-capture reference
services line 2 only. -/
theorem dispatch_singleCapture_counterexample :
    (picIrqHandlerNonVectored isrAsserting9 4).2 = [2, 9] ∧
    (dispatchNonVectoredOnce isrAsserting9 4).2 = [2] ∧
    (picIrqHandlerNonVectored isrAsserting9 4).2
      ≠ (dispatchNonVectoredOnce isrAsserting9 4).2 := by
  decide

/-- Claim C1, amended.  The non-vectored dispatch pass agrees with the
reference that samples the pending-status word exactly once at pass start
provided no invoked callback changes the pending-status word during the
pass; without that hypothesis the equivalence fails (see the
counterexample), because the source re-reads the status register at every
bit position. -/
theorem dispatch_eq_singleCapture_of_preserved (isrs : Nat → Nat → Nat)
    (st : Nat) (h : ∀ i, isrs i st = st) :
    picIrqHandlerNonVectored isrs st = dispatchNonVectoredOnce isrs st := by
  unfold picIrqHandlerNonVectored dispatchNonVectoredOnce
  rw [dispatchLoop_of_fixed isrs st h NR_INTERRUPTS 0 [],
    dispatchOnceLoop_of_fixed isrs st st h NR_INTERRUPTS 0 []]

/-- Claim C1, witness for the amended theorem at a concrete input. -/
theorem dispatch_eq_singleCapture_witness :
    picIrqHandlerNonVectored (fun _ st => st) 37
      = dispatchNonVectoredOnce (fun _ st => st) 37 :=
  dispatch_eq_singleCapture_of_preserved (fun _ st => st) 37 (fun _ => rfl)

/-- Claim C6.  When the pending-status word constantly equals `{2,5,9}`
(value 548) throughout the pass — no invoked callback changes it — the
non-vectored dispatcher invokes exactly the table entries of lines 2, 5
and 9, once each, in that order, and no other entry. -/
theorem dispatch_pending_2_5_9 (isrs : Nat → Nat → Nat)
    (h : ∀ i, isrs i 548 = 548) :
    (picIrqHandlerNonVectored isrs 548).2 = [2, 5, 9] := by
  unfold picIrqHandlerNonVectored
  rw [dispatchLoop_of_fixed isrs 548 h NR_INTERRUPTS 0 []]
  show [] ++ servicedBits 548 NR_INTERRUPTS 0 = [2, 5, 9]
  decide

/-- Claim C6, witness at a concrete input. -/
theorem dispatch_pending_2_5_9_witness :
    (picIrqHandlerNonVectored (fun _ st => st) 548).2 = [2, 5, 9] :=
  dispatch_pending_2_5_9 (fun _ st => st) (fun _ => rfl)

/-- Claim C3 fails on the code: `pic_init` empties the shadow table but
never touches the `VICVECTCNTLn` registers, so after binding line 5 (slot
0, control word `5 | 0x20`) and calling `pic_init` again, slot 0's shadow
entry is empty while its hardware enable bit is still set — contradicting
both the claimed invariant and `pic_init`'s own documentation that
"all vector and other registers are cleared". -/
theorem pic_init_leaves_stale_vector_enable :
    (pic_registerVectorIrq (pic_init picZero) 5 4096).2 = 0 ∧
    (pic_init ((pic_registerVectorIrq (pic_init picZero) 5 4096).1)).irqVect 0
      = -1 ∧
    (pic_init ((pic_registerVectorIrq (pic_init picZero) 5 4096).1)).VICVECTCNTLn 0
        &&& BM_VECT_ENABLE_BIT = BM_VECT_ENABLE_BIT := by
  decide

/-- Claim C9.  A mutating PIC call with an invalid argument — a line number
at least 32, or a `NULL` callback — leaves the entire controller state
unchanged: `pic_registerNonVectoredIrq` is a silent no-op (in particular
`register(line, NULL)` keeps the existing table entry) and
`pic_registerVectorIrq` additionally returns the -1 sentinel. -/
theorem invalid_args_no_op (s : PicState) (irq addr : Nat)
    (h : NR_INTERRUPTS ≤ irq ∨ addr = 0) :
    pic_registerNonVectoredIrq s irq addr = s ∧
    pic_registerVectorIrq s irq addr = (s, -1) := by
  constructor
  · unfold pic_registerNonVectoredIrq
    rw [if_neg]
    intro hc
    rcases h with h | h
    · omega
    · exact hc.2 h
  · unfold pic_registerVectorIrq
    rw [if_pos h]

/-- Claim C9, witness: registering a null callback for line 7 on a state
with an existing entry changes nothing. -/
theorem invalid_args_no_op_witness :
    pic_registerNonVectoredIrq (pic_init picZero) 7 0 = pic_init picZero ∧
    pic_registerVectorIrq (pic_init picZero) 7 0 = (pic_init picZero, -1) :=
  invalid_args_no_op (pic_init picZero) 7 0 (Or.inr rfl)

/-- Claim C8.  For every source range `[a, b)` (so `a ≤ b`), relocating
with the destination equal to the source start is a complete no-op: the
write counter stays zero and every memory word is unchanged. -/
theorem relocate_self_no_writes (mem : Nat → Nat) (a b x : Nat)
    (hab : a ≤ b) :
    (relocate mem a b a).2 = 0 ∧ (relocate mem a b a).1 x = mem x := by
  have h1 : a = min a b := (min_eq_left hab).symm
  unfold relocate
  rw [if_pos h1]
  exact ⟨rfl, rfl⟩

/-- Claim C8, witness at a concrete input. -/
theorem relocate_self_no_writes_witness :
    (relocate (fun a => a + 100) 16 18 16).2 = 0 ∧
    (relocate (fun a => a + 100) 16 18 16).1 5 = (fun a => a + 100) 5 :=
  relocate_self_no_writes (fun a => a + 100) 16 18 5 (by decide)

/-- Claim C2.  For every source range and every destination (including
destinations inside the source range), provided the copy fits in the
address space (the source guard's condition), `relocate` produces exactly
the memory of the reference copy through a non-overlapping intermediate
buffer: every destination word holds the original source word and every
other word is untouched; the direction rule makes the overlapping cases
safe. -/
theorem relocate_eq_relocateRef (mem : Nat → Nat) (vs ve dst a : Nat)
    (hov : max vs ve - min vs ve ≤ MAX_WORD_ADDR - dst) :
    (relocate mem vs ve dst).1 a = relocateRef mem vs ve dst a := by
  unfold relocate relocateRef
  by_cases h1 : dst = min vs ve
  · rw [if_pos h1]
    by_cases h2 : dst ≤ a ∧ a < dst + (max vs ve - min vs ve)
    · rw [if_pos h2]
      show mem a = mem (min vs ve + (a - dst))
      congr 1
      omega
    · rw [if_neg h2]
  · have hminmax : min vs ve ≤ max vs ve := min_le_max
    rw [if_neg h1, if_neg (by omega)]
    by_cases h3 : dst < min vs ve ∨ max vs ve ≤ dst
    · rw [if_pos h3]
      rw [copyFwd_spec _ mem (min vs ve) dst (by omega) a]
    · rw [if_neg h3]
      rw [copyBwd_spec _ mem (min vs ve) dst (by omega) a]

/-- Claim C2, witness: destination 17 lies inside the source range
`[16, 18)`, exercising the backward (overlap-safe) copy. -/
theorem relocate_eq_relocateRef_witness :
    (relocate (fun a => a + 100) 16 18 17).1 17
      = relocateRef (fun a => a + 100) 16 18 17 17 :=
  relocate_eq_relocateRef (fun a => a + 100) 16 18 17 17 (by decide)

/-- Claim C4.  Whenever a first `pic_registerVectorIrq irq isrA` succeeds
(some slot can serve the line), a second `pic_registerVectorIrq irq isrB`
returns the same slot index, the slot afterwards holds ISR address `isrB`
with its control word re-asserting the enable bit, and every other slot's
shadow entry is unchanged by the second call. -/
theorem rebind_same_slot (s : PicState) (irq a b j : Nat)
    (hirq : irq < NR_INTERRUPTS) (ha : a ≠ 0) (hb : b ≠ 0)
    (hok : 0 ≤ (pic_registerVectorIrq s irq a).2) :
    (pic_registerVectorIrq (pic_registerVectorIrq s irq a).1 irq b).2
        = (pic_registerVectorIrq s irq a).2 ∧
    (pic_registerVectorIrq (pic_registerVectorIrq s irq a).1 irq b).1.VICVECTADDRn
        (pic_registerVectorIrq s irq a).2.toNat = b ∧
    (pic_registerVectorIrq (pic_registerVectorIrq s irq a).1 irq b).1.VICVECTCNTLn
        (pic_registerVectorIrq s irq a).2.toNat = irq ||| BM_VECT_ENABLE_BIT ∧
    (j ≠ (pic_registerVectorIrq s irq a).2.toNat →
      (pic_registerVectorIrq (pic_registerVectorIrq s irq a).1 irq b).1.irqVect j
        = (pic_registerVectorIrq s irq a).1.irqVect j) := by
  obtain ⟨c, hc, heq, hmin⟩ := registerVectorIrq_inv s irq a hirq ha hok
  have h2 : pic_registerVectorIrq (pic_registerVectorIrq s irq a).1 irq b
      = bindAt (pic_registerVectorIrq s irq a).1 irq b c := by
    apply register_existing _ _ _ _ hc hirq hb
    · rw [heq]
      simp [bindAt, updN]
    · intro j2 hj2
      rw [heq]
      show updN s.irqVect c (irq : Int) j2 ≠ (irq : Int)
      rw [updN_ne _ _ _ _ (by omega)]
      exact hmin j2 hj2
  rw [h2, heq]
  refine ⟨rfl, ?_, ?_, fun hj => ?_⟩
  · simp [bindAt, updN]
  · simp [bindAt, updN]
  · have hjc : j ≠ c := by simpa [bindAt] using hj
    show updN ((bindAt s irq a c).1.irqVect) c (irq : Int) j
        = (bindAt s irq a c).1.irqVect j
    exact updN_ne _ _ _ _ hjc

/-- Claim C4, witness at a concrete input (line 7 bound twice from the
freshly initialized controller; both calls return slot 0). -/
theorem rebind_same_slot_witness :
    (pic_registerVectorIrq (pic_registerVectorIrq (pic_init picZero) 7 1).1 7 2).2
        = (pic_registerVectorIrq (pic_init picZero) 7 1).2 ∧
    (pic_registerVectorIrq (pic_registerVectorIrq (pic_init picZero) 7 1).1
        7 2).1.VICVECTADDRn
        (pic_registerVectorIrq (pic_init picZero) 7 1).2.toNat = 2 ∧
    (pic_registerVectorIrq (pic_registerVectorIrq (pic_init picZero) 7 1).1
        7 2).1.VICVECTCNTLn
        (pic_registerVectorIrq (pic_init picZero) 7 1).2.toNat
        = 7 ||| BM_VECT_ENABLE_BIT ∧
    (3 ≠ (pic_registerVectorIrq (pic_init picZero) 7 1).2.toNat →
      (pic_registerVectorIrq (pic_registerVectorIrq (pic_init picZero) 7 1).1
          7 2).1.irqVect 3
        = (pic_registerVectorIrq (pic_init picZero) 7 1).1.irqVect 3) :=
  rebind_same_slot (pic_init picZero) 7 1 2 3 (by decide) (by decide)
    (by decide) (by decide)

/-- Claim C5.  Starting from the state produced by `pic_init`, binding 17
pairwise-distinct valid lines with non-null ISR addresses succeeds for
the first 16 calls, returning the 16 distinct slot indices 0..15 in
order, and the 17th call returns the -1 sentinel leaving the state (the
shadow table and all 16 slots) exactly as after the 16th call. -/
theorem seventeen_binds (s : PicState) (lines addrs : Nat → Nat)
    (hl : ∀ i, i < 17 → lines i < NR_INTERRUPTS)
    (hinj : ∀ i j, i < 17 → j < 17 → lines i = lines j → i = j)
    (ha : ∀ i, i < 17 → addrs i ≠ 0) :
    (bindSeq (pic_init s) lines addrs 17).2
      = [0, 1, 2, 3, 4, 5, 6, 7, 8, 9, 10, 11, 12, 13, 14, 15, -1] ∧
    (bindSeq (pic_init s) lines addrs 17).1
      = (bindSeq (pic_init s) lines addrs 16).1 := by
  have hNRV : NR_VECTORS = 16 := rfl
  have hvect : ∀ j, (pic_init s).irqVect j = -1 := fun j => rfl
  obtain ⟨h1, h2, h3⟩ := bindSeq_inv (pic_init s) lines addrs hvect
    (fun i hi => hl i (by omega))
    (fun i j hi hj he => hinj i j (by omega) (by omega) he)
    (fun i hi => ha i (by omega))
    16 (by omega)
  have hfull : pic_registerVectorIrq (bindSeq (pic_init s) lines addrs 16).1
      (lines 16) (addrs 16) = ((bindSeq (pic_init s) lines addrs 16).1, -1) := by
    apply register_full
    · intro j hj
      rw [h1 j (by omega)]
      intro e
      have he2 : lines j = lines 16 := by exact_mod_cast e
      have := hinj j 16 (by omega) (by omega) he2
      omega
    · intro j hj
      rw [h1 j (by omega)]
      omega
  have hstep : bindSeq (pic_init s) lines addrs 17
      = ((pic_registerVectorIrq (bindSeq (pic_init s) lines addrs 16).1
            (lines 16) (addrs 16)).1,
         (bindSeq (pic_init s) lines addrs 16).2
           ++ [(pic_registerVectorIrq (bindSeq (pic_init s) lines addrs 16).1
                 (lines 16) (addrs 16)).2]) := rfl
  constructor
  · rw [hstep, hfull, h3]
    show (List.range 16).map (fun i => ((i : Nat) : Int)) ++ [-1] = _
    decide
  · rw [hstep, hfull]

/-- Claim C5, witness: lines 0..16 with ISR address 1 from the freshly
initialized controller. -/
theorem seventeen_binds_witness :
    (bindSeq (pic_init picZero) (fun i => i) (fun _ => 1) 17).2
      = [0, 1, 2, 3, 4, 5, 6, 7, 8, 9, 10, 11, 12, 13, 14, 15, -1] ∧
    (bindSeq (pic_init picZero) (fun i => i) (fun _ => 1) 17).1
      = (bindSeq (pic_init picZero) (fun i => i) (fun _ => 1) 16).1 :=
  seventeen_binds picZero (fun i => i) (fun _ => 1)
    (fun i hi => by simp only [NR_INTERRUPTS]; omega)
    (fun i j _ _ he => he)
    (fun i _ => one_ne_zero)

/-- Claim C7.  For every controller state and lines `irq, other < 32`:
after `pic_disableInterrupt irq` the line reads disabled, after
`pic_enableInterrupt irq` it reads enabled, and in both cases every other
line's enabled state is unchanged — the two operations modify exactly one
bit of the enable state. -/
theorem enable_disable_single_bit (s : PicState) (irq other : Nat)
    (hirq : irq < NR_INTERRUPTS) (hother : other < NR_INTERRUPTS) :
    pic_isInterruptEnabled (pic_disableInterrupt s irq) irq = 0 ∧
    pic_isInterruptEnabled (pic_enableInterrupt s irq) irq = 1 ∧
    (other ≠ irq →
      pic_isInterruptEnabled (pic_disableInterrupt s irq) other
        = pic_isInterruptEnabled s other ∧
      pic_isInterruptEnabled (pic_enableInterrupt s irq) other
        = pic_isInterruptEnabled s other) := by
  have hirq32 : irq < 32 := by simpa [NR_INTERRUPTS] using hirq
  have hother32 : other < 32 := by simpa [NR_INTERRUPTS] using hother
  have hd : pic_disableInterrupt s irq
      = { s with VICINTENABLE := writeClearReg s.VICINTENABLE (1 <<< irq) } := by
    unfold pic_disableInterrupt
    rw [if_pos hirq]
  have he : pic_enableInterrupt s irq
      = { s with VICINTENABLE := s.VICINTENABLE ||| (1 <<< irq) } := by
    unfold pic_enableInterrupt
    rw [if_pos hirq]
  refine ⟨?_, ?_, fun hne => ⟨?_, ?_⟩⟩
  · rw [hd, isEnabled_testBit _ _ hirq]
    have hb : (writeClearReg s.VICINTENABLE (1 <<< irq)).testBit irq = false := by
      rw [writeClearReg_testBit _ _ _ hirq32, one_shl, Nat.testBit_two_pow_self]
      simp
    simp [hb]
  · rw [he, isEnabled_testBit _ _ hirq]
    have hb : (s.VICINTENABLE ||| (1 <<< irq)).testBit irq = true := by
      simp [one_shl, Nat.testBit_two_pow_self]
    simp [hb]
  · rw [hd, isEnabled_testBit _ _ hother, isEnabled_testBit s other hother]
    have hb : (writeClearReg s.VICINTENABLE (1 <<< irq)).testBit other
        = s.VICINTENABLE.testBit other := by
      rw [writeClearReg_testBit _ _ _ hother32, one_shl,
        Nat.testBit_two_pow_of_ne (Ne.symm hne)]
      simp
    simp [hb]
  · rw [he, isEnabled_testBit _ _ hother, isEnabled_testBit s other hother]
    have hb : (s.VICINTENABLE ||| (1 <<< irq)).testBit other
        = s.VICINTENABLE.testBit other := by
      simp [one_shl, Nat.testBit_two_pow_of_ne (Ne.symm hne)]
    simp [hb]

/-- Claim C7, witness at a concrete input. -/
theorem enable_disable_single_bit_witness :
    pic_isInterruptEnabled (pic_disableInterrupt (pic_init picZero) 3) 3 = 0 ∧
    pic_isInterruptEnabled (pic_enableInterrupt (pic_init picZero) 3) 3 = 1 ∧
    pic_isInterruptEnabled (pic_disableInterrupt (pic_init picZero) 3) 4
      = pic_isInterruptEnabled (pic_init picZero) 4 ∧
    pic_isInterruptEnabled (pic_enableInterrupt (pic_init picZero) 3) 4
      = pic_isInterruptEnabled (pic_init picZero) 4 := by
  obtain ⟨w1, w2, w3⟩ :=
    enable_disable_single_bit (pic_init picZero) 3 4 (by decide) (by decide)
  obtain ⟨w4, w5⟩ := w3 (by decide)
  exact ⟨w1, w2, w4, w5⟩

/-- Claim C10.  For a valid line, `pic_setInterruptType line asIRQ`
followed by `pic_getInterruptType line` returns 1 exactly when `asIRQ`
was nonzero and 0 otherwise (the type is stored as an inverted bit of
`VICINTSELECT`), every other line's `pic_getInterruptType` is unchanged,
and for a line at least 32 `pic_setInterruptType` is a no-op while
`pic_getInterruptType` returns 0. -/
theorem setType_getType_roundtrip (s : PicState) (irq : Nat) (toIrq : Int)
    (other : Nat) :
    (irq < NR_INTERRUPTS →
      pic_getInterruptType (pic_setInterruptType s irq toIrq) irq
        = if toIrq ≠ 0 then 1 else 0) ∧
    (other ≠ irq →
      pic_getInterruptType (pic_setInterruptType s irq toIrq) other
        = pic_getInterruptType s other) ∧
    (NR_INTERRUPTS ≤ irq →
      pic_setInterruptType s irq toIrq = s ∧ pic_getInterruptType s irq = 0) := by
  refine ⟨fun hirq => ?_, fun hne => ?_, fun hge => ?_⟩
  · have hirq32 : irq < 32 := by simpa [NR_INTERRUPTS] using hirq
    by_cases ht : toIrq ≠ 0
    · have hset : pic_setInterruptType s irq toIrq
          = { s with VICINTSELECT := s.VICINTSELECT &&& (MASK32 ^^^ (1 <<< irq)) } := by
        unfold pic_setInterruptType
        rw [if_pos hirq, if_pos ht]
      rw [hset, getType_testBit _ _ hirq, if_pos ht]
      have hb : (s.VICINTSELECT &&& (MASK32 ^^^ (1 <<< irq))).testBit irq
          = false := by
        simp [Nat.testBit_and, Nat.testBit_xor, testBit_mask32, one_shl,
          Nat.testBit_two_pow_self, hirq32]
      simp [hb]
    · have hset : pic_setInterruptType s irq toIrq
          = { s with VICINTSELECT := s.VICINTSELECT ||| (1 <<< irq) } := by
        unfold pic_setInterruptType
        rw [if_pos hirq, if_neg ht]
      rw [hset, getType_testBit _ _ hirq, if_neg ht]
      have hb : (s.VICINTSELECT ||| (1 <<< irq)).testBit irq = true := by
        simp [one_shl, Nat.testBit_two_pow_self]
      simp [hb]
  · by_cases hirq : irq < NR_INTERRUPTS
    · have hirq32 : irq < 32 := by simpa [NR_INTERRUPTS] using hirq
      by_cases hother : other < NR_INTERRUPTS
      · have hother32 : other < 32 := by simpa [NR_INTERRUPTS] using hother
        by_cases ht : toIrq ≠ 0
        · have hset : pic_setInterruptType s irq toIrq
              = { s with
                  VICINTSELECT := s.VICINTSELECT &&& (MASK32 ^^^ (1 <<< irq)) } := by
            unfold pic_setInterruptType
            rw [if_pos hirq, if_pos ht]
          rw [hset, getType_testBit _ _ hother, getType_testBit s other hother]
          have hb : (s.VICINTSELECT &&& (MASK32 ^^^ (1 <<< irq))).testBit other
              = s.VICINTSELECT.testBit other := by
            simp [Nat.testBit_and, Nat.testBit_xor, testBit_mask32, one_shl,
              Nat.testBit_two_pow_of_ne (Ne.symm hne), hother32]
          simp [hb]
        · have hset : pic_setInterruptType s irq toIrq
              = { s with VICINTSELECT := s.VICINTSELECT ||| (1 <<< irq) } := by
            unfold pic_setInterruptType
            rw [if_pos hirq, if_neg ht]
          rw [hset, getType_testBit _ _ hother, getType_testBit s other hother]
          have hb : (s.VICINTSELECT ||| (1 <<< irq)).testBit other
              = s.VICINTSELECT.testBit other := by
            simp [one_shl, Nat.testBit_two_pow_of_ne (Ne.symm hne)]
          simp [hb]
      · have hg : ∀ s2 : PicState, pic_getInterruptType s2 other = 0 := by
          intro s2
          unfold pic_getInterruptType
          rw [if_neg (fun hc => hother hc.1)]
        rw [hg, hg]
    · have hset : pic_setInterruptType s irq toIrq = s := by
        unfold pic_setInterruptType
        rw [if_neg hirq]
      rw [hset]
  · constructor
    · unfold pic_setInterruptType
      rw [if_neg (by omega)]
    · unfold pic_getInterruptType
      rw [if_neg (fun hc => by omega)]

/-- Claim C10, witness at a concrete input. -/
theorem setType_getType_roundtrip_witness :
    pic_getInterruptType (pic_setInterruptType (pic_init picZero) 5 1) 5 = 1 ∧
    pic_getInterruptType (pic_setInterruptType (pic_init picZero) 5 1) 9
      = pic_getInterruptType (pic_init picZero) 9 := by
  obtain ⟨w1, w2, _⟩ := setType_getType_roundtrip (pic_init picZero) 5 1 9
  exact ⟨by simpa using w1 (by decide), w2 (by decide)⟩

end Arm926
